import Mathlib

/-!
Shallow embedding of the Thrift compiler's generator base class
(`compiler/cpp/src/generate/t_generator.h`) and proofs about its
string-transform, naming, indentation and type-resolution utilities.

Strings handled by the character-level C utilities (`isupper`, `tolower`,
`toupper` acting on `char`) are modelled as lists of natural numbers, the
character codes, since C `char` is an integer type and the classification
functions are arithmetic on codes (C locale / ASCII semantics).
Whole-string values (paths, temp names) are modelled as Lean `String`.
-/

/-- Character codes of a string literal, for readable concrete inputs. -/
def chars (s : String) : List Nat := s.data.map Char.toNat

/-- The code of the separator character, ASCII underscore. -/
def usc : Nat := 95

/-- C `isupper` in the C locale: codes 65..90 are the uppercase letters. -/
def isupper (c : Nat) : Bool := decide (65 ≤ c ∧ c ≤ 90)

/-- C `islower` in the C locale: codes 97..122 are the lowercase letters. -/
def islower (c : Nat) : Bool := decide (97 ≤ c ∧ c ≤ 122)

/-- C `tolower` in the C locale: shift an uppercase letter down into the
lowercase range, leave every other code unchanged. -/
def tolower (c : Nat) : Nat := if isupper c then c + 32 else c

/-- C `toupper` in the C locale: shift a lowercase letter up into the
uppercase range, leave every other code unchanged. -/
def toupper (c : Nat) : Nat := if islower c then c - 32 else c

/-- Embedding of `t_generator::capitalize`: `in[0] = toupper(in[0])`.
The source reads `in[0]` unguarded, so the empty case is a precondition;
the embedding returns the empty string there. -/
def capitalize : List Nat → List Nat
  | [] => []
  | c :: rest => toupper c :: rest

/-- Embedding of `t_generator::decapitalize`: `in[0] = tolower(in[0])`.
Empty input is a precondition, as for `capitalize`. -/
def decapitalize : List Nat → List Nat
  | [] => []
  | c :: rest => tolower c :: rest

/-- The loop of `t_generator::underscore` over positions `1 ≤ i < size`:
each uppercase character is lowercased and an underscore is inserted
immediately before it (the `++i` then lands on the inserted separator's
successor, the already-lowercased character, so the scan continues after
it). -/
def underscoreTail : List Nat → List Nat
  | [] => []
  | c :: rest =>
    if isupper c then usc :: tolower c :: underscoreTail rest
    else c :: underscoreTail rest

/-- Embedding of `t_generator::underscore`: `in[0] = tolower(in[0])`, then
the insertion loop over the remaining characters. Empty input is a
precondition (`in[0]` is read unguarded). -/
def underscore : List Nat → List Nat
  | [] => []
  | c :: rest => tolower c :: underscoreTail rest

/-- The loop of `t_generator::camelcase` with the `bool underscore` flag as
an explicit argument: a separator is consumed and sets the flag; any other
character is emitted, uppercased when the flag is set, which also clears
the flag. -/
def camelcaseLoop : List Nat → Bool → List Nat
  | [], _ => []
  | c :: rest, flag =>
    if c = usc then camelcaseLoop rest true
    else if flag then toupper c :: camelcaseLoop rest false
    else c :: camelcaseLoop rest false

/-- Embedding of `t_generator::camelcase`: run the loop with the flag
initially clear. -/
def camelcase (s : List Nat) : List Nat := camelcaseLoop s false

/-- Modelled from the spec: the program object (`t_program`, whose source
is outside this tree) carries a declared output path, exposed verbatim by
its accessor. Only the field the generator reads is modelled. -/
structure t_program where
  out_path_ : String

/-- Modelled from the spec: accessor `t_program::get_out_path`, returning
the program's declared output path. -/
def t_program.get_out_path (p : t_program) : String := p.out_path_

/-- Mutable per-instance state of `t_generator`: the bound program, the
backend's output-directory tag `out_dir_base_`, the indentation level
`indent_` (a C `int`, so an integer that can go negative) and the
temporary-name counter `tmp_` (starts at 0 and only ever increments). -/
structure t_generator where
  program_ : t_program
  out_dir_base_ : String
  indent_ : Int
  tmp_ : Nat

/-- Embedding of the `t_generator` constructor: `tmp_ = 0; indent_ = 0;`
and the program pointer is stored. `out_dir_base_` is set by the concrete
backend subclass, modelled as a parameter. -/
def init_t_generator (program : t_program) (base : String) : t_generator :=
  { program_ := program, out_dir_base_ := base, indent_ := 0, tmp_ := 0 }

/-- Embedding of `t_generator::get_out_dir`:
`program_->get_out_path() + out_dir_base_ + "/"`. -/
def get_out_dir (g : t_generator) : String :=
  g.program_.get_out_path ++ g.out_dir_base_ ++ "/"

/-- Embedding of `t_generator::tmp`: stream `name` then `tmp_++` (the old
counter value, rendered in decimal) into the result, incrementing the
counter. -/
def tmp (name : String) (g : t_generator) : String × t_generator :=
  (name ++ Nat.repr g.tmp_, { g with tmp_ := g.tmp_ + 1 })

/-- Embedding of `t_generator::indent_up`: `++indent_`. -/
def indent_up (g : t_generator) : t_generator :=
  { g with indent_ := g.indent_ + 1 }

/-- Embedding of `t_generator::indent_down`: `--indent_`, with no check
against the level being zero. -/
def indent_down (g : t_generator) : t_generator :=
  { g with indent_ := g.indent_ - 1 }

/-- The loop of `t_generator::indent`: starting from the empty string,
append two spaces once per iteration. -/
def indentLoop : Nat → String
  | 0 => ""
  | Nat.succ n => indentLoop n ++ "  "

/-- Embedding of `t_generator::indent`: the loop `for (i = 0; i < indent_;
++i)` runs `max(indent_, 0)` times, i.e. `indent_.toNat` times. -/
def indent (g : t_generator) : String := indentLoop g.indent_.toNat

/-- Embedding of the thrift type-tree as seen by `get_true_type`: a type
is either a typedef wrapping another type (`t_typedef::get_type`) or a
terminal, non-typedef type, identified here by its name. -/
inductive t_type where
  | base (name : String) : t_type
  | typedef_decl (name : String) (ty : t_type) : t_type

/-- Embedding of `t_type::is_typedef`, true exactly on typedef nodes. -/
def t_type.is_typedef : t_type → Bool
  | .typedef_decl _ _ => true
  | .base _ => false

/-- Embedding of `t_generator::get_true_type`: follow
`t_typedef::get_type` links while the type is a typedef. The source loop
terminates exactly when the chain is finite and acyclic, which the
inductive model makes intrinsic. -/
def get_true_type : t_type → t_type
  | .typedef_decl _ ty => get_true_type ty
  | .base n => .base n

/-- Declarations handed to the struct/exception hooks (`t_struct*`); only
identity matters for the forwarding claim, so the name stands for the
declaration. -/
structure t_struct_decl where
  name : String

/-- A concrete backend's mandatory struct hook together with the state it
transforms, the part of the generation contract the exception default
relies on. -/
structure Backend (σ : Type) where
  generate_struct : t_struct_decl → σ → σ

/-- Embedding of the base-class default `t_generator::generate_xception`:
"By default exceptions are the same as structs" — it forwards the
declaration to `generate_struct`. -/
def Backend.generate_xception {σ : Type} (b : Backend σ)
    (txception : t_struct_decl) (s : σ) : σ :=
  b.generate_struct txception s

/-- Two character-code strings that agree apart from the case of their
leading character: equal tails and leading characters equal after case
folding. -/
def eqModuloLeadingCase : List Nat → List Nat → Bool
  | [], [] => true
  | c :: cs, d :: ds => decide (tolower c = tolower d) && decide (cs = ds)
  | _, _ => false

theorem tolower_ne_usc (c : Nat) (h : c ≠ usc) : tolower c ≠ usc := by
  rw [tolower]
  by_cases hu : isupper c = true
  · rw [if_pos hu]
    have hb : 65 ≤ c ∧ c ≤ 90 := by simpa [isupper] using hu
    simp only [usc]
    omega
  · rw [if_neg hu]
    exact h

theorem toupper_tolower (c : Nat) (h : isupper c = true) :
    toupper (tolower c) = c := by
  have hb : 65 ≤ c ∧ c ≤ 90 := by simpa [isupper] using h
  rw [tolower, if_pos h, toupper]
  rw [if_pos (show islower (c + 32) = true by simp only [islower, decide_eq_true_eq]; omega)]
  omega

theorem tolower_idem (c : Nat) : tolower (tolower c) = tolower c := by
  by_cases hu : isupper c = true
  · have hb : 65 ≤ c ∧ c ≤ 90 := by simpa [isupper] using hu
    have h1 : tolower c = c + 32 := by rw [tolower, if_pos hu]
    rw [h1, tolower,
      if_neg (show ¬ isupper (c + 32) = true by simp only [isupper, decide_eq_true_eq]; omega)]
  · have h1 : tolower c = c := by rw [tolower, if_neg hu]
    rw [h1, h1]

theorem camelcaseLoop_usc (rest : List Nat) (flag : Bool) :
    camelcaseLoop (usc :: rest) flag = camelcaseLoop rest true := by
  simp [camelcaseLoop]

theorem camelcaseLoop_cons_true (c : Nat) (rest : List Nat) (h : c ≠ usc) :
    camelcaseLoop (c :: rest) true = toupper c :: camelcaseLoop rest false := by
  simp [camelcaseLoop, h]

theorem camelcaseLoop_cons_false (c : Nat) (rest : List Nat) (h : c ≠ usc) :
    camelcaseLoop (c :: rest) false = c :: camelcaseLoop rest false := by
  simp [camelcaseLoop, h]

theorem camelcaseLoop_underscoreTail (s : List Nat) (h : usc ∉ s) :
    camelcaseLoop (underscoreTail s) false = s := by
  induction s with
  | nil => rfl
  | cons c rest ih =>
    have hc : c ≠ usc := fun e => h (e ▸ List.mem_cons_self c rest)
    have hrest : usc ∉ rest := fun m => h (List.mem_cons_of_mem _ m)
    rw [underscoreTail]
    by_cases hu : isupper c = true
    · rw [if_pos hu, camelcaseLoop_usc,
        camelcaseLoop_cons_true _ _ (tolower_ne_usc c hc),
        toupper_tolower c hu, ih hrest]
    · rw [if_neg hu, camelcaseLoop_cons_false _ _ hc, ih hrest]

theorem underscoreTail_eq_foldr (s : List Nat) :
    underscoreTail s =
      s.foldr (fun c acc => if isupper c then usc :: tolower c :: acc else c :: acc) [] := by
  induction s with
  | nil => rfl
  | cons c rest ih => simp only [underscoreTail, List.foldr_cons, ih]

theorem indentLoop_data (n : Nat) :
    (indentLoop n).data = List.replicate (2 * n) ' ' := by
  induction n with
  | zero => rfl
  | succ n ih =>
    show (indentLoop n ++ "  ").data = _
    rw [String.data_append, ih, show 2 * (n + 1) = 2 * n + 2 by ring,
      List.replicate_add]
    rfl

/-- Claim C3: for every non-empty identifier, `underscore` lowercases the
first character and then, scanning the remaining characters left to right,
lowercases each uppercase character and inserts an underscore immediately
before it, every uppercase character (including consecutive ones)
receiving its own separator; in particular it maps "CamelCase" to
"camel_case", "aMultiWord" to "a_multi_word", "Name" to "name", and the
adjacent capitals of "aBC" each get a separator, giving "a_b_c". -/
theorem underscore_spec :
    (∀ c rest, underscore (c :: rest) =
      tolower c ::
        rest.foldr (fun d acc => if isupper d then usc :: tolower d :: acc else d :: acc) [])
    ∧ underscore (chars ("CamelCase")) = chars ("camel_case")
    ∧ underscore (chars ("aMultiWord")) = chars ("a_multi_word")
    ∧ underscore (chars ("Name")) = chars ("name")
    ∧ underscore (chars ("aBC")) = chars ("a_b_c") := by
  refine ⟨fun c rest => ?_, by decide, by decide, by decide, by decide⟩
  rw [underscore, underscoreTail_eq_foldr]

/-- Claim C4: `camelcase` scans left to right; an underscore is consumed
(not emitted) and sets the flag; with the flag set, the next character is
emitted uppercased and the flag cleared; every other character passes
through unchanged; a trailing underscore with no following character is
dropped (the loop ends with the flag still set and emits nothing); in
particular it maps "a_multi_word" to "aMultiWord", "name" to itself, and
"a_" to "a". -/
theorem camelcase_spec :
    (∀ rest flag, camelcaseLoop (usc :: rest) flag = camelcaseLoop rest true)
    ∧ (∀ c rest, c ≠ usc →
        camelcaseLoop (c :: rest) true = toupper c :: camelcaseLoop rest false)
    ∧ (∀ c rest, c ≠ usc →
        camelcaseLoop (c :: rest) false = c :: camelcaseLoop rest false)
    ∧ (∀ flag, camelcaseLoop [] flag = [])
    ∧ camelcase (chars ("a_multi_word")) = chars ("aMultiWord")
    ∧ camelcase (chars ("name")) = chars ("name")
    ∧ camelcase (chars ("a_")) = chars ("a") := by
  exact ⟨camelcaseLoop_usc, camelcaseLoop_cons_true, camelcaseLoop_cons_false,
    fun _ => rfl, by decide, by decide, by decide⟩

/-- Witness for C4: the flag-set step at the concrete character code 98
(letter b), whose hypothesis 98 ≠ 95 holds by computation. -/
theorem camelcase_spec_witness :
    ((98 : Nat) ≠ usc)
    ∧ camelcaseLoop (98 :: []) true = toupper 98 :: camelcaseLoop [] false :=
  ⟨by decide, camelcase_spec.2.1 98 [] (by decide)⟩

/-- Claim C9: `camelcase` treats a run of one or more consecutive
underscores as a single separator — the whole run is consumed and only
the character after the run is uppercased — so "a__b" maps to "aB", the
same output as "a_b", and the underscore count is not recoverable. -/
theorem camelcase_collapses_usc_runs :
    (∀ n rest flag,
      camelcaseLoop (List.replicate (n + 1) usc ++ rest) flag = camelcaseLoop rest true)
    ∧ camelcase (chars ("a__b")) = chars ("aB")
    ∧ camelcase (chars ("a_b")) = camelcase (chars ("a__b"))
    ∧ chars ("a_b") ≠ chars ("a__b") := by
  refine ⟨fun n => ?_, by decide, by decide, by decide⟩
  induction n with
  | zero =>
    intro rest flag
    simp only [List.replicate_succ, List.replicate_zero, List.cons_append,
      List.nil_append, camelcaseLoop_usc]
  | succ n ih =>
    intro rest flag
    rw [List.replicate_succ, List.cons_append, camelcaseLoop_usc]
    exact ih rest true

/-- Claim C1 (amended): for every non-empty identifier containing no
underscore character, `camelcase (underscore s)` reproduces `s` apart
from the case of its first character — concretely, it equals `s` with the
first character lowercased. -/
theorem underscore_camelcase_roundtrip (c : Nat) (rest : List Nat)
    (h : usc ∉ (c :: rest)) :
    camelcase (underscore (c :: rest)) = tolower c :: rest
    ∧ eqModuloLeadingCase (camelcase (underscore (c :: rest))) (c :: rest) = true := by
  have hc : c ≠ usc := fun e => h (e ▸ List.mem_cons_self c rest)
  have hrest : usc ∉ rest := fun m => h (List.mem_cons_of_mem _ m)
  have key : camelcase (underscore (c :: rest)) = tolower c :: rest := by
    rw [underscore, camelcase, camelcaseLoop_cons_false _ _ (tolower_ne_usc c hc),
      camelcaseLoop_underscoreTail rest hrest]
  refine ⟨key, ?_⟩
  rw [key]
  simp [eqModuloLeadingCase, tolower_idem]

/-- Witness for C1: the round trip at the concrete identifier "aB",
character codes 97 and 66, which contains no underscore. -/
theorem underscore_camelcase_roundtrip_witness :
    (usc ∉ (97 :: [66] : List Nat))
    ∧ (camelcase (underscore (97 :: [66])) = tolower 97 :: [66]
        ∧ eqModuloLeadingCase (camelcase (underscore (97 :: [66]))) (97 :: [66]) = true) :=
  ⟨by decide, underscore_camelcase_roundtrip 97 [66] (by decide)⟩

/-- Counterexample for C1 as stated: the identifier "a_b" has length ≥ 1,
yet the round trip yields "aB", which does not agree with "a_b" even
apart from the first character's case. -/
theorem underscore_camelcase_roundtrip_cex :
    1 ≤ (chars ("a_b")).length
    ∧ camelcase (underscore (chars ("a_b"))) = chars ("aB")
    ∧ eqModuloLeadingCase (camelcase (underscore (chars ("a_b")))) (chars ("a_b")) = false := by
  refine ⟨by decide, by decide, by decide⟩

/-- Claim C2 (amended): `get_out_dir` concatenates the program's declared
output path directly with the backend tag and a trailing slash, inserting
no separator of its own between path and tag; the claimed shape
root + "/" + tag + "/" is obtained exactly when the declared path itself
ends in a slash. -/
theorem get_out_dir_spec :
    (∀ g, get_out_dir g = g.program_.get_out_path ++ g.out_dir_base_ ++ "/")
    ∧ (∀ g root, g.program_.get_out_path = root ++ "/" →
        get_out_dir g = root ++ "/" ++ g.out_dir_base_ ++ "/") := by
  refine ⟨fun g => rfl, fun g root h => ?_⟩
  rw [get_out_dir, h]

/-- Witness for C2 (amended): a generator whose program declares the
output path "out/", with backend tag "gen-cpp". -/
theorem get_out_dir_spec_witness :
    ((init_t_generator ⟨"out/"⟩ ("gen-cpp")).program_.get_out_path = "out" ++ "/")
    ∧ get_out_dir (init_t_generator ⟨"out/"⟩ ("gen-cpp")) = "out" ++ "/" ++
        (init_t_generator ⟨"out/"⟩ ("gen-cpp")).out_dir_base_ ++ "/" :=
  ⟨by decide, get_out_dir_spec.2 (init_t_generator ⟨"out/"⟩ ("gen-cpp")) ("out") (by decide)⟩

/-- Counterexample for C2 as stated: with declared output path "out" and
tag "gen-cpp", `get_out_dir` yields "outgen-cpp/", not the claimed
"out" + "/" + "gen-cpp" + "/". -/
theorem get_out_dir_cex :
    get_out_dir (init_t_generator ⟨"out"⟩ ("gen-cpp")) = "outgen-cpp/"
    ∧ get_out_dir (init_t_generator ⟨"out"⟩ ("gen-cpp")) ≠ "out" ++ "/" ++ "gen-cpp" ++ "/" := by
  refine ⟨by decide, by decide⟩

/-- Claim C5: `tmp` returns the prefix followed by the decimal rendering
of the current counter and increments the counter, which thus strictly
increases on every call regardless of prefix; from a fresh instance the
calls tmp "x", tmp "x", tmp p yield "x0", "x1" and p ++ "2". -/
theorem tmp_spec :
    (∀ name g, (tmp name g).1 = name ++ Nat.repr g.tmp_
      ∧ (tmp name g).2.tmp_ = g.tmp_ + 1)
    ∧ (∀ name g, g.tmp_ < (tmp name g).2.tmp_)
    ∧ (∀ p prog base,
        (tmp ("x") (init_t_generator prog base)).1 = "x0"
        ∧ (tmp ("x") (tmp ("x") (init_t_generator prog base)).2).1 = "x1"
        ∧ (tmp p (tmp ("x") (tmp ("x") (init_t_generator prog base)).2).2).1 = p ++ "2") :=
  ⟨fun _ g => ⟨rfl, rfl⟩, fun _ g => Nat.lt_succ_self g.tmp_,
    fun p _ _ => by
      refine ⟨?_, ?_, ?_⟩
      · show ("x" : String) ++ Nat.repr 0 = "x0"
        decide
      · show ("x" : String) ++ Nat.repr 1 = "x1"
        decide
      · show p ++ Nat.repr 2 = p ++ "2"
        rw [show Nat.repr 2 = "2" from by decide]⟩

/-- Claim C6: the default exception hook forwards to the struct hook, so
for every backend, declaration and state the two produce the same
result. -/
theorem generate_xception_default_eq_struct :
    ∀ (σ : Type) (b : Backend σ) (txception : t_struct_decl) (s : σ),
      b.generate_xception txception s = b.generate_struct txception s :=
  fun _ _ _ _ => rfl

/-- Claim C7: `get_true_type` (total on the inductive type model, in which
typedef chains are intrinsically finite and acyclic) always returns a
non-typedef type, steps through each typedef link, and on a chain of
three nested typedefs resolves to the terminal non-typedef type. -/
theorem get_true_type_spec :
    (∀ t, (get_true_type t).is_typedef = false)
    ∧ (∀ n ty, get_true_type (t_type.typedef_decl n ty) = get_true_type ty)
    ∧ (∀ n, get_true_type (t_type.base n) = t_type.base n)
    ∧ (∀ n1 n2 n3 b,
        get_true_type
          (t_type.typedef_decl n1 (t_type.typedef_decl n2
            (t_type.typedef_decl n3 (t_type.base b)))) = t_type.base b) := by
  refine ⟨fun t => ?_, fun _ _ => rfl, fun _ => rfl, fun _ _ _ _ => rfl⟩
  induction t with
  | base n => rfl
  | typedef_decl n ty ih => simpa [get_true_type] using ih

/-- Claim C8: on a non-empty identifier, `capitalize` replaces only the
first character by its uppercase form and `decapitalize` only the first
character by its lowercase form; the tail is untouched and the length is
preserved. -/
theorem capitalize_decapitalize_spec :
    ∀ c rest,
      capitalize (c :: rest) = toupper c :: rest
      ∧ decapitalize (c :: rest) = tolower c :: rest
      ∧ (capitalize (c :: rest)).length = (c :: rest).length
      ∧ (decapitalize (c :: rest)).length = (c :: rest).length :=
  fun _ _ => ⟨rfl, rfl, rfl, rfl⟩

/-- Claim C10: `indent_down` decrements the level unconditionally (a
fresh instance driven down once sits at level -1), and `indent` is total:
it returns the empty string whenever the level is zero or negative, and
otherwise two spaces repeated level-many times. -/
theorem indent_spec :
    (∀ g, (indent_down g).indent_ = g.indent_ - 1)
    ∧ (∀ prog base, (indent_down (init_t_generator prog base)).indent_ = -1)
    ∧ (∀ g, g.indent_ ≤ 0 → indent g = "")
    ∧ (∀ g, 0 < g.indent_ →
        (indent g).data = List.replicate (2 * g.indent_.toNat) ' ') := by
  refine ⟨fun g => rfl, fun _ _ => rfl, fun g h => ?_, fun g _ => ?_⟩
  · rw [indent, Int.toNat_eq_zero.mpr h]
    rfl
  · rw [indent, indentLoop_data]

/-- Witness for C10: a fresh instance driven one level down (level -1)
indents to the empty string, and a fresh instance driven one level up
(level 1) indents to two spaces. -/
theorem indent_spec_witness :
    ((indent_down (init_t_generator ⟨"o"⟩ ("g"))).indent_ ≤ 0)
    ∧ indent (indent_down (init_t_generator ⟨"o"⟩ ("g"))) = ""
    ∧ ((0 : Int) < (indent_up (init_t_generator ⟨"o"⟩ ("g"))).indent_)
    ∧ (indent (indent_up (init_t_generator ⟨"o"⟩ ("g")))).data =
        List.replicate (2 * (indent_up (init_t_generator ⟨"o"⟩ ("g"))).indent_.toNat) ' ' :=
  ⟨by decide,
    indent_spec.2.2.1 (indent_down (init_t_generator ⟨"o"⟩ ("g"))) (by decide),
    by decide,
    indent_spec.2.2.2 (indent_up (init_t_generator ⟨"o"⟩ ("g"))) (by decide)⟩
